import Mathlib

/-!
# wx/fontutil.h : the font descriptor `wxNativeFontInfo`

A shallow embedding of the member functions that `include/wx/fontutil.h`
defines inline:

* `wxNativeFontInfo::InitFromFont(const wxFont&)`   (lines 191-222)
* `wxNativeFontInfo::SetSizeOrDefault(double)`       (lines 251-258)
* the copy constructor, destructor and `operator=` of the OSX and Pango
  variants (lines 83-95 and 173-184)
* the default constructor (line 164)

Every other member function is only declared in the header.  A call to such
a function is represented by a constructor of `Call`; what the call does to
the program state is given by an implementation `Impl`, which the embedded
functions take as a parameter.  Each call is also appended to a log, so that
the number and order of the calls an inline function makes can be stated.
-/

namespace FontUtil

/-! ## Values -/

/-- A C++ `double`.  Finite values are rationals (every finite double is one);
the two zeros, the infinities and NaN are kept apart because the comparison
`size < 0` of `SetSizeOrDefault` treats them specially. -/
inductive Double where
  | nan
  | negInf
  | posInf
  | negZero
  | fin (q : ℚ)
  deriving DecidableEq

namespace Double

/-- The literal `0` of `size < 0`, converted to `double`. -/
def zero : Double := fin 0

/-- Numeric value of a double that is neither NaN nor infinite. -/
def val : Double → ℚ
  | fin q => q
  | _ => 0

/-- IEEE 754 `a < b`: false whenever an operand is NaN, `-0.0 < 0.0` false. -/
def lt : Double → Double → Bool
  | nan, _ => false
  | _, nan => false
  | negInf, negInf => false
  | negInf, _ => true
  | _, negInf => false
  | posInf, _ => false
  | _, posInf => true
  | a, b => decide (a.val < b.val)

/-- IEEE 754 `a <= b`: false whenever an operand is NaN. -/
def le : Double → Double → Bool
  | nan, _ => false
  | _, nan => false
  | negInf, _ => true
  | _, negInf => false
  | _, posInf => true
  | posInf, _ => false
  | a, b => decide (a.val ≤ b.val)

end Double

/-- The enumeration `wxFontFamily` of wx/font.h, by its integer value. -/
abbrev wxFontFamily := Int

/-- The enumeration `wxFontStyle` of wx/font.h, by its integer value. -/
abbrev wxFontStyle := Int

/-- The enumeration `wxFontEncoding` of wx/fontenc.h, by its integer value. -/
abbrev wxFontEncoding := Int

/-- The class `wxSize`: a width and a height in pixels. -/
structure wxSize where
  x : Int
  y : Int
  deriving DecidableEq

/-- The address of a `wxNativeFontInfo` object (`this`, `&info`). -/
abbrev Addr := Nat

/-- The preprocessor branch that selects the layout of `wxNativeFontInfo`
(lines 48, 55, 81, 138, 145), in the order the header tests them. -/
inductive Platform where
  | pango
  | msw
  | osx
  | qt
  | other
  deriving DecidableEq

/-- What `InitFromFont` reads from a `wxFont`: the results of its getters.
`ν` is the type of a reference to a `wxNativeFontInfo`. -/
structure wxFont (ν : Type) where
  GetNativeFontInfo : ν
  GetStyle : wxFontStyle
  GetNumericWeight : Int
  GetUnderlined : Bool
  GetStrikethrough : Bool
  IsUsingSizeInPixels : Bool
  GetPixelSize : wxSize
  GetFractionalPointSize : Double
  GetFamily : wxFontFamily
  GetFaceName : String
  GetEncoding : wxFontEncoding

/-! ## Calls to the member functions that are only declared -/

/-- A call, on `*this`, of a member function of `wxNativeFontInfo` that the
header declares without a body.  `Init` is `Init()` (line 188) and `InitFrom`
is `Init(const wxNativeFontInfo&)` (lines 99, 169). -/
inductive Call (ν : Type) where
  | Init
  | InitFrom (info : ν)
  | Free
  | SetFractionalPointSize (pointsize : Double)
  | SetPixelSize (pixelSize : wxSize)
  | SetStyle (style : wxFontStyle)
  | SetNumericWeight (weight : Int)
  | SetUnderlined (underlined : Bool)
  | SetStrikethrough (strikethrough : Bool)
  | SetFaceName (facename : String)
  | SetFamily (family : wxFontFamily)
  | SetEncoding (encoding : wxFontEncoding)
  deriving DecidableEq

/-- The calls that are attribute setters (lines 237-247). -/
def Call.isSetter {ν : Type} : Call ν → Bool
  | .Init => false
  | .InitFrom _ => false
  | .Free => false
  | _ => true

/-- An implementation of the declared member functions: the effect of each
call on the program state `σ`.  (`SetFaceName` also returns a `bool`, which
no inline function of the header looks at.) -/
abbrev Impl (σ ν : Type) := Call ν → σ → σ

/-- A program state together with the calls made so far, oldest first. -/
structure Traced (σ ν : Type) where
  state : σ
  log : List (Call ν)

/-- Make one call: apply its effect and record it. -/
def call {σ ν : Type} (M : Impl σ ν) (c : Call ν) (t : Traced σ ν) : Traced σ ν :=
  ⟨M c t.state, t.log ++ [c]⟩

/-- Make a sequence of calls, in order. -/
def callAll {σ ν : Type} (M : Impl σ ν) : List (Call ν) → Traced σ ν → Traced σ ν
  | [], t => t
  | c :: cs, t => callAll M cs (call M c t)

/-! ## The inline member functions -/

/-- The function `wxNativeFontInfo::InitFromFont(const wxFont& font)`, lines 191-222. -/
def InitFromFont {σ ν : Type} (M : Impl σ ν) (p : Platform) (font : wxFont ν)
    (t : Traced σ ν) : Traced σ ν :=
  if p = .pango ∨ p = .osx then
    call M (.InitFrom font.GetNativeFontInfo) t
  else
    let t := call M (.SetStyle font.GetStyle) t
    let t := call M (.SetNumericWeight font.GetNumericWeight) t
    let t := call M (.SetUnderlined font.GetUnderlined) t
    let t := call M (.SetStrikethrough font.GetStrikethrough) t
    let t :=
      if p = .msw then
        if font.IsUsingSizeInPixels then
          call M (.SetPixelSize font.GetPixelSize) t
        else
          call M (.SetFractionalPointSize font.GetFractionalPointSize) t
      else
        call M (.SetFractionalPointSize font.GetFractionalPointSize) t
    let t := call M (.SetFamily font.GetFamily) t
    let facename := font.GetFaceName
    let t := if facename ≠ "" then call M (.SetFaceName facename) t else t
    call M (.SetEncoding font.GetEncoding) t

/-- The function `wxNativeFontInfo::SetSizeOrDefault(double size)`, lines 251-258.
`wxNORMAL_FONT` is the global the body dereferences. -/
def SetSizeOrDefault {σ ν : Type} (M : Impl σ ν) (wxNORMAL_FONT : wxFont ν)
    (size : Double) (t : Traced σ ν) : Traced σ ν :=
  call M
    (.SetFractionalPointSize
      (if Double.lt size Double.zero then wxNORMAL_FONT.GetFractionalPointSize
       else size))
    t

/-- The default constructor `wxNativeFontInfo() { Init(); }`, line 164. -/
def defaultCtor {σ : Type} (M : Addr → Impl σ Addr) (this : Addr)
    (t : Traced σ Addr) : Traced σ Addr :=
  call (M this) .Init t

/-- The copy constructor `wxNativeFontInfo(const wxNativeFontInfo& info)
{ Init(info); }` of the OSX (line 83) and Pango (line 173) variants. -/
def copyCtor {σ : Type} (M : Addr → Impl σ Addr) (this info : Addr)
    (t : Traced σ Addr) : Traced σ Addr :=
  call (M this) (.InitFrom info) t

/-- The destructor `~wxNativeFontInfo() { Free(); }` of the OSX (line 85) and
Pango (line 174) variants. -/
def dtor {σ : Type} (M : Addr → Impl σ Addr) (this : Addr)
    (t : Traced σ Addr) : Traced σ Addr :=
  call (M this) .Free t

/-- The assignment `wxNativeFontInfo& operator=(const wxNativeFontInfo& info)`
of the OSX (lines 87-95) and Pango (lines 176-184) variants, whose bodies are
the same.  The result is the address the returned reference denotes and the
new state. -/
def operatorAssign {σ : Type} (M : Addr → Impl σ Addr) (this info : Addr)
    (t : Traced σ Addr) : Addr × Traced σ Addr :=
  if this ≠ info then
    let t := call (M this) .Free t
    let t := call (M this) (.InitFrom info) t
    (this, t)
  else
    (this, t)

/-! ## The generic port -/

/-- The data members of the generic variant (`wxNO_NATIVE_FONTINFO`),
lines 152-159. -/
structure GenericInfo where
  pointSize : Double
  family : wxFontFamily
  style : wxFontStyle
  weight : Int
  underlined : Bool
  strikethrough : Bool
  faceName : String
  encoding : wxFontEncoding
  deriving DecidableEq

/-- Modelled from the spec: the bodies of the attribute setters of the generic
variant, which the header only declares.  The spec describes them as the
"mutators for each semantic font attribute" of a value that holds "fractional
point size, family, style, numeric weight, underline flag, strikethrough flag,
face name, encoding": each setter stores its argument in the data member of
its attribute.  The calls that are not setters of one of these eight members
(`Init`, `Init(info)`, `Free`, `SetPixelSize`) are left to the parameter
`rest`. -/
def genericImpl {ν : Type} (rest : Impl GenericInfo ν) : Impl GenericInfo ν
  | .SetFractionalPointSize pointsize, d => { d with pointSize := pointsize }
  | .SetStyle style, d => { d with style := style }
  | .SetNumericWeight weight, d => { d with weight := weight }
  | .SetUnderlined underlined, d => { d with underlined := underlined }
  | .SetStrikethrough strikethrough, d => { d with strikethrough := strikethrough }
  | .SetFaceName facename, d => { d with faceName := facename }
  | .SetFamily family, d => { d with family := family }
  | .SetEncoding encoding, d => { d with encoding := encoding }
  | c, d => rest c d

/-! ## The Pango variant: a native description owned through a pointer -/

/-- A handle to a native font description (a `PangoFontDescription*`, a
`CTFontDescriptorRef`). -/
abbrev Handle := Nat

/-- The data members of the Pango variant, lines 49-54. -/
structure PangoInfo where
  description : Handle
  m_underlined : Bool
  m_strikethrough : Bool
  deriving DecidableEq

/-- The memory of a Pango program: the descriptor objects by address, the
native descriptions by handle (`δ` is what a description holds: the attributes
other than underline and strikethrough), and the next handle the allocator
gives out. -/
structure PangoWorld (δ : Type) where
  objs : Addr → Option PangoInfo
  heap : Handle → Option δ
  next : Handle

/-- Modelled from the spec: `Init(const wxNativeFontInfo&)` of the Pango
variant, declared on line 169 without a body.  The spec says "copying performs
independent resource acquisition (native handle retain/duplicate) so instances
do not alias": the copy gets a description of its own, a duplicate of the
source's, and the two flags the object stores itself. -/
def pangoInitFrom {δ : Type} (this info : Addr) (w : PangoWorld δ) : PangoWorld δ :=
  match w.objs info with
  | none => w
  | some src =>
    { objs := Function.update w.objs this
        (some ⟨w.next, src.m_underlined, src.m_strikethrough⟩)
      heap := Function.update w.heap w.next (w.heap src.description)
      next := w.next + 1 }

/-- Modelled from the spec: `Free()` of the Pango variant, declared on line 170
without a body.  The spec says a descriptor is "destroyed with handle release":
the description the object owns is released. -/
def pangoFree {δ : Type} (this : Addr) (w : PangoWorld δ) : PangoWorld δ :=
  match w.objs this with
  | none => w
  | some o => { w with heap := Function.update w.heap o.description none }

/-- Modelled from the spec: the member functions the Pango variant only
declares.  `SetUnderlined` and `SetStrikethrough` store into the object's own
flags (the comment on lines 51-52); every other setter changes, in place, the
native description the object owns, by a transformation `alter` that is left
open; `Init()` is left to the parameter `init`. -/
def pangoImpl {δ : Type} (init : Addr → PangoWorld δ → PangoWorld δ)
    (alter : Call Addr → δ → δ) (this : Addr) : Impl (PangoWorld δ) Addr
  | .Init, w => init this w
  | .InitFrom info, w => pangoInitFrom this info w
  | .Free, w => pangoFree this w
  | .SetUnderlined underlined, w =>
    match w.objs this with
    | none => w
    | some o =>
      { w with objs := Function.update w.objs this (some { o with m_underlined := underlined }) }
  | .SetStrikethrough strikethrough, w =>
    match w.objs this with
    | none => w
    | some o =>
      { w with objs := Function.update w.objs this
                 (some { o with m_strikethrough := strikethrough }) }
  | c, w =>
    match w.objs this with
    | none => w
    | some o =>
      { w with heap := Function.update w.heap o.description
                 ((w.heap o.description).map (alter c)) }

/-- The attributes of the Pango descriptor at address `a`: what its native
description holds and its two flags; `none` when there is no object at `a` or
its description has been released. -/
def pangoAttrs {δ : Type} (w : PangoWorld δ) (a : Addr) : Option (δ × Bool × Bool) :=
  match w.objs a with
  | none => none
  | some o =>
    match w.heap o.description with
    | none => none
    | some d => some (d, o.m_underlined, o.m_strikethrough)

/-- Whatever is done to `y` through its setters, and its destruction after
that, leaves the attributes of `x` as they are in `t`. -/
def PangoUnaffected {δ : Type} (M : Addr → Impl (PangoWorld δ) Addr)
    (t : Traced (PangoWorld δ) Addr) (x y : Addr) : Prop :=
  ∀ cs : List (Call Addr), (∀ c ∈ cs, c.isSetter = true) →
    pangoAttrs (callAll (M y) cs t).state x = pangoAttrs t.state x ∧
    pangoAttrs (dtor M y (callAll (M y) cs t)).state x = pangoAttrs t.state x

/-! ## The OSX variant: a retained, shared native descriptor -/

/-- The data members of the OSX variant, lines 119-135.  `m_descriptor` is the
`wxCFRef<CTFontDescriptorRef>`: `none` is the null reference. -/
structure OSXInfo where
  m_ctWeight : Double
  m_ctWidth : Double
  m_style : wxFontStyle
  m_ctSize : Double
  m_family : wxFontFamily
  m_familyName : String
  m_postScriptName : String
  m_descriptor : Option Handle
  m_underlined : Bool
  m_strikethrough : Bool
  m_encoding : wxFontEncoding
  deriving DecidableEq

/-- The memory of an OSX program: the descriptor objects by address and the
retain count of every native descriptor (0: deallocated). -/
structure OSXWorld where
  objs : Addr → Option OSXInfo
  retainCount : Handle → Nat

/-- Modelled from the spec: `Init(const wxNativeFontInfo&)` of the OSX variant,
declared on line 99 without a body.  The spec says "copying performs
independent resource acquisition (native handle retain/duplicate)": every data
member is copied and the native descriptor, when there is one, is retained. -/
def osxInitFrom (this info : Addr) (w : OSXWorld) : OSXWorld :=
  match w.objs info with
  | none => w
  | some src =>
    { objs := Function.update w.objs this (some src)
      retainCount :=
        match src.m_descriptor with
        | none => w.retainCount
        | some h => Function.update w.retainCount h (w.retainCount h + 1) }

/-- Modelled from the spec: `Free()` of the OSX variant, declared on line 101
without a body.  The spec says a descriptor is "destroyed with handle release":
the reference to the native descriptor is released and reset to null. -/
def osxFree (this : Addr) (w : OSXWorld) : OSXWorld :=
  match w.objs this with
  | none => w
  | some o =>
    { objs := Function.update w.objs this (some { o with m_descriptor := none })
      retainCount :=
        match o.m_descriptor with
        | none => w.retainCount
        | some h => Function.update w.retainCount h (w.retainCount h - 1) }

/-- Modelled from the spec: the member functions the OSX variant only declares.
The attributes are data members of the object (lines 117-135, "attributes for
regenerating a CTFontDescriptor"), so a setter changes the object's own members,
by a transformation `alter` that is left open; it either keeps the reference
to the native descriptor or, when `drops` says so, releases it first (the
spec's "lazy realization of a native resource").  `Init()` is left to the
parameter `init`. -/
def osxImpl (init : Addr → OSXWorld → OSXWorld) (drops : Call Addr → OSXInfo → Bool)
    (alter : Call Addr → OSXInfo → OSXInfo) (this : Addr) : Impl OSXWorld Addr
  | .Init, w => init this w
  | .InitFrom info, w => osxInitFrom this info w
  | .Free, w => osxFree this w
  | c, w =>
    match w.objs this with
    | none => w
    | some o =>
      let w1 := if drops c o then osxFree this w else w
      let kept := if drops c o then none else o.m_descriptor
      { w1 with objs := Function.update w1.objs this
                  (some { alter c o with m_descriptor := kept }) }

/-- The native descriptor of the object at `a`, when it has one, has not been
deallocated. -/
def osxLive (w : OSXWorld) (a : Addr) : Prop :=
  ∀ o h, w.objs a = some o → o.m_descriptor = some h → 0 < w.retainCount h

/-- The retain count of the native descriptor of `x` accounts for `x`, and
for `y` as well when `y` refers to the same descriptor. -/
def osxCounted (w : OSXWorld) (x y : Addr) : Prop :=
  ∀ ox h, w.objs x = some ox → ox.m_descriptor = some h →
    0 < w.retainCount h ∧
    ∀ oy, w.objs y = some oy → oy.m_descriptor = some h → 2 ≤ w.retainCount h

/-- Whatever is done to `y` through its setters, and its destruction after
that, leaves every data member of `x` as it is in `t` and the native
descriptor of `x` allocated. -/
def OSXUnaffected (M : Addr → Impl OSXWorld Addr) (t : Traced OSXWorld Addr)
    (x y : Addr) : Prop :=
  ∀ cs : List (Call Addr), (∀ c ∈ cs, c.isSetter = true) →
    (callAll (M y) cs t).state.objs x = t.state.objs x ∧
    osxLive (callAll (M y) cs t).state x ∧
    (dtor M y (callAll (M y) cs t)).state.objs x = t.state.objs x ∧
    osxLive (dtor M y (callAll (M y) cs t)).state x

/-- In `t`, the Pango descriptor `b` is an independent copy of what `a` was in
`w`: both have the attributes `a` had, and neither is affected by what is done
to the other. -/
def PangoCopyOf {δ : Type} (M : Addr → Impl (PangoWorld δ) Addr) (w : PangoWorld δ)
    (t : Traced (PangoWorld δ) Addr) (a b : Addr) : Prop :=
  pangoAttrs t.state b = pangoAttrs w a ∧
  pangoAttrs t.state a = pangoAttrs w a ∧
  PangoUnaffected M t a b ∧
  PangoUnaffected M t b a

/-- In `t`, the OSX descriptor `b` is an independent copy of what `a` was in
`w`: both have the data members `a` had, their native descriptor is allocated,
and neither is affected by what is done to the other. -/
def OSXCopyOf (M : Addr → Impl OSXWorld Addr) (w : OSXWorld)
    (t : Traced OSXWorld Addr) (a b : Addr) : Prop :=
  t.state.objs b = w.objs a ∧
  t.state.objs a = w.objs a ∧
  osxLive t.state a ∧
  osxLive t.state b ∧
  OSXUnaffected M t a b ∧
  OSXUnaffected M t b a

/-- The calls `InitFromFont` makes before `SetFamily` on a port that is
neither Pango nor OSX. -/
def initFromFontHead {ν : Type} (p : Platform) (font : wxFont ν) : List (Call ν) :=
  [.SetStyle font.GetStyle, .SetNumericWeight font.GetNumericWeight,
   .SetUnderlined font.GetUnderlined, .SetStrikethrough font.GetStrikethrough,
   if p = .msw ∧ font.IsUsingSizeInPixels = true then .SetPixelSize font.GetPixelSize
   else .SetFractionalPointSize font.GetFractionalPointSize]

/-! ## Sample inputs -/

/-- A bold, underlined 12pt font that names no face. -/
def sampleFont : wxFont Addr :=
  { GetNativeFontInfo := 1, GetStyle := 93, GetNumericWeight := 700,
    GetUnderlined := true, GetStrikethrough := false, IsUsingSizeInPixels := false,
    GetPixelSize := ⟨0, 16⟩, GetFractionalPointSize := .fin 12, GetFamily := 74,
    GetFaceName := "", GetEncoding := 1 }

/-- A generic descriptor that was given the face name Courier earlier. -/
def samplePrior : GenericInfo :=
  { pointSize := .fin 9, family := 70, style := 90, weight := 400, underlined := false,
    strikethrough := true, faceName := "Courier", encoding := 0 }

/-- An implementation of the remaining calls of the generic variant that does
nothing. -/
def noRest : Impl GenericInfo Addr := fun _ d => d

/-- What a sample Pango description holds: a size and a family name. -/
abbrev SampleDescription := Double × String

/-- A sample in-place change of a Pango description. -/
def sampleAlter : Call Addr → SampleDescription → SampleDescription
  | .SetFractionalPointSize pointsize, d => (pointsize, d.2)
  | .SetFaceName facename, d => (d.1, facename)
  | _, d => d

/-- Two Pango descriptors, at addresses 1 and 2, each with a description of
its own. -/
def samplePangoWorld : PangoWorld SampleDescription :=
  { objs := fun x =>
      if x = 1 then some ⟨0, true, false⟩
      else if x = 2 then some ⟨1, false, false⟩ else none
    heap := fun h =>
      if h = 0 then some (.fin 12, "Sans")
      else if h = 1 then some (.fin 9, "Serif") else none
    next := 2 }

/-- An OSX descriptor with the native descriptor `h`. -/
def sampleOSXInfo (h : Option Handle) : OSXInfo :=
  { m_ctWeight := .fin 0, m_ctWidth := .fin 0, m_style := 90, m_ctSize := .fin 12,
    m_family := 70, m_familyName := "Helvetica", m_postScriptName := "Helvetica",
    m_descriptor := h, m_underlined := false, m_strikethrough := false,
    m_encoding := 0 }

/-- Two OSX descriptors, at addresses 1 and 2, that share the native
descriptor 0, whose retain count is 2. -/
def sampleOSXWorld : OSXWorld :=
  { objs := fun x => if x = 1 ∨ x = 2 then some (sampleOSXInfo (some 0)) else none
    retainCount := fun h => if h = 0 then 2 else 0 }

/-- A sample OSX setter body: `SetUnderlined` stores the flag. -/
def sampleOSXAlter : Call Addr → OSXInfo → OSXInfo
  | .SetUnderlined underlined, o => { o with m_underlined := underlined }
  | _, o => o

/-! ## Theorems -/

theorem callAll_append {σ ν : Type} (M : Impl σ ν) (cs ds : List (Call ν))
    (t : Traced σ ν) : callAll M (cs ++ ds) t = callAll M ds (callAll M cs t) := by
  induction cs generalizing t with
  | nil => rfl
  | cons c cs ih => simp [callAll, ih]

theorem callAll_log {σ ν : Type} (M : Impl σ ν) (cs : List (Call ν))
    (t : Traced σ ν) : (callAll M cs t).log = t.log ++ cs := by
  induction cs generalizing t with
  | nil => simp [callAll]
  | cons c cs ih => simp [callAll, ih, call]

theorem InitFromFont_eq_callAll {σ ν : Type} (M : Impl σ ν) (p : Platform)
    (font : wxFont ν) (t : Traced σ ν) (hp : p ≠ .pango) (ho : p ≠ .osx) :
    InitFromFont M p font t =
      call M (.SetEncoding font.GetEncoding)
        (callAll M
          (initFromFontHead p font ++ .SetFamily font.GetFamily ::
            (if font.GetFaceName = "" then [] else [.SetFaceName font.GetFaceName])) t) := by
  unfold InitFromFont initFromFontHead
  by_cases hm : p = .msw <;> by_cases hx : font.IsUsingSizeInPixels = true <;>
    by_cases hf : font.GetFaceName = "" <;> simp [hp, ho, hm, hx, hf, callAll]

/-- C3: `SetSizeOrDefault(size)` makes exactly one call, `SetFractionalPointSize`,
whose argument is `size` itself when `size >= 0` (zero included) and the
fractional point size of `wxNORMAL_FONT` when `size < 0`; this holds for every
implementation of the setter.  On the generic variant the call stores that
value in `pointSize` and leaves the seven other data members as they were. -/
theorem SetSizeOrDefault_spec {σ ν : Type} (M : Impl σ ν) (rest : Impl GenericInfo ν)
    (wxNORMAL_FONT : wxFont ν) (size : Double) (t : Traced σ ν)
    (d : GenericInfo) (l : List (Call ν)) :
    (Double.le Double.zero size = true →
      SetSizeOrDefault M wxNORMAL_FONT size t
          = ⟨M (.SetFractionalPointSize size) t.state,
             t.log ++ [.SetFractionalPointSize size]⟩ ∧
      (SetSizeOrDefault (genericImpl rest) wxNORMAL_FONT size ⟨d, l⟩).state
          = { d with pointSize := size }) ∧
    (Double.lt size Double.zero = true →
      SetSizeOrDefault M wxNORMAL_FONT size t
          = ⟨M (.SetFractionalPointSize wxNORMAL_FONT.GetFractionalPointSize) t.state,
             t.log ++ [.SetFractionalPointSize wxNORMAL_FONT.GetFractionalPointSize]⟩ ∧
      (SetSizeOrDefault (genericImpl rest) wxNORMAL_FONT size ⟨d, l⟩).state
          = { d with pointSize := wxNORMAL_FONT.GetFractionalPointSize }) := by
  constructor
  · intro h
    have hlt : Double.lt size Double.zero = false := by
      cases size <;> simp_all [Double.le, Double.lt, Double.zero, Double.val]
    simp [SetSizeOrDefault, hlt, call, genericImpl]
  · intro h
    simp [SetSizeOrDefault, h, call, genericImpl]

/-- C6: on a port that is neither Pango nor OSX, `InitFromFont` ends with the
call `SetEncoding(font.GetEncoding())`: the result is that call applied to the
state the earlier calls `pre` produced, so the family and face name are what
`SetEncoding` leaves.  `SetFamily` is among the earlier calls, `SetFaceName` is
among them exactly when the font has a non-empty face name, and no earlier call
is a `SetEncoding`.  This holds for every implementation of the setters. -/
theorem InitFromFont_SetEncoding_last {σ ν : Type} (M : Impl σ ν) (p : Platform)
    (font : wxFont ν) (t : Traced σ ν) (hp : p ≠ .pango) (ho : p ≠ .osx) :
    ∃ pre : List (Call ν),
      InitFromFont M p font t
        = call M (.SetEncoding font.GetEncoding) (callAll M pre t) ∧
      (InitFromFont M p font t).state
        = M (.SetEncoding font.GetEncoding) (callAll M pre t).state ∧
      (InitFromFont M p font t).log
        = t.log ++ pre ++ [.SetEncoding font.GetEncoding] ∧
      .SetFamily font.GetFamily ∈ pre ∧
      (font.GetFaceName ≠ "" → .SetFaceName font.GetFaceName ∈ pre) ∧
      (font.GetFaceName = "" → ∀ s, .SetFaceName s ∉ pre) ∧
      (∀ e, .SetEncoding e ∉ pre) := by
  refine ⟨_, InitFromFont_eq_callAll M p font t hp ho, ?_, ?_, ?_, ?_, ?_, ?_⟩
  · rw [InitFromFont_eq_callAll M p font t hp ho]; rfl
  · rw [InitFromFont_eq_callAll M p font t hp ho]
    simp [call, callAll_log]
  · simp
  · intro h; simp [h]
  · intro h s; simp only [h, if_true, initFromFontHead]; split <;> simp
  · intro e; simp only [initFromFontHead]; split <;> split <;> simp

/-- C7: `a = a` makes no call at all (neither `Free()` nor `Init(info)`), leaves
the whole program state as it was, and returns a reference to `a`; for a source
at another address it calls `Free()` and then `Init(info)`, once each and in
that order, and returns a reference to the target.  This holds for every
implementation of `Free` and `Init(info)`. -/
theorem operatorAssign_spec {σ : Type} (M : Addr → Impl σ Addr) (this info : Addr)
    (t : Traced σ Addr) :
    (this = info → operatorAssign M this info t = (this, t)) ∧
    (this ≠ info →
      operatorAssign M this info t
        = (this, ⟨M this (.InitFrom info) (M this .Free t.state),
                  t.log ++ [.Free, .InitFrom info]⟩)) := by
  constructor
  · intro h; simp [operatorAssign, h]
  · intro h; simp [operatorAssign, h, call]

/-! ### Pango: frame lemmas -/

theorem pangoImpl_frame {δ : Type} (init : Addr → PangoWorld δ → PangoWorld δ)
    (alter : Call Addr → δ → δ) (x y : Addr) (hxy : x ≠ y) (w : PangoWorld δ)
    (ox oy : PangoInfo) (hx : w.objs x = some ox) (hy : w.objs y = some oy)
    (hd : ox.description ≠ oy.description) (c : Call Addr)
    (hc : c.isSetter = true ∨ c = .Free) :
    (pangoImpl init alter y c w).objs x = some ox ∧
    (pangoImpl init alter y c w).heap ox.description = w.heap ox.description ∧
    ∃ oy', (pangoImpl init alter y c w).objs y = some oy' ∧
      oy'.description = oy.description := by
  cases c <;>
    simp_all [pangoImpl, pangoFree, Call.isSetter, Function.update]

theorem pango_callAll_frame {δ : Type} (init : Addr → PangoWorld δ → PangoWorld δ)
    (alter : Call Addr → δ → δ) (x y : Addr) (hxy : x ≠ y) (ox : PangoInfo)
    (cs : List (Call Addr)) (hcs : ∀ c ∈ cs, c.isSetter = true)
    (t : Traced (PangoWorld δ) Addr) (oy : PangoInfo)
    (hx : t.state.objs x = some ox) (hy : t.state.objs y = some oy)
    (hd : ox.description ≠ oy.description) :
    (callAll (pangoImpl init alter y) cs t).state.objs x = some ox ∧
    (callAll (pangoImpl init alter y) cs t).state.heap ox.description
      = t.state.heap ox.description ∧
    ∃ oy', (callAll (pangoImpl init alter y) cs t).state.objs y = some oy' ∧
      oy'.description = oy.description := by
  induction cs generalizing t oy with
  | nil => exact ⟨hx, rfl, oy, hy, rfl⟩
  | cons c cs ih =>
    have hc : c.isSetter = true := hcs c (List.mem_cons_self _ _)
    obtain ⟨h1, h2, oy', h3, h4⟩ :=
      pangoImpl_frame init alter x y hxy t.state ox oy hx hy hd c (Or.inl hc)
    have := ih (fun c' hc' => hcs c' (List.mem_cons_of_mem _ hc'))
      (call (pangoImpl init alter y) c t) oy' h1 h3 (by rw [h4]; exact hd)
    simp only [callAll]
    refine ⟨this.1, ?_, ?_⟩
    · rw [this.2.1]; exact h2
    · obtain ⟨oy'', h5, h6⟩ := this.2.2
      exact ⟨oy'', h5, by rw [h6, h4]⟩

theorem pango_unaffected {δ : Type} (init : Addr → PangoWorld δ → PangoWorld δ)
    (alter : Call Addr → δ → δ) (x y : Addr) (hxy : x ≠ y)
    (t : Traced (PangoWorld δ) Addr) (ox oy : PangoInfo)
    (hx : t.state.objs x = some ox) (hy : t.state.objs y = some oy)
    (hd : ox.description ≠ oy.description) :
    PangoUnaffected (pangoImpl init alter) t x y := by
  intro cs hcs
  obtain ⟨h1, h2, oy', h3, h4⟩ :=
    pango_callAll_frame init alter x y hxy ox cs hcs t oy hx hy hd
  constructor
  · simp [pangoAttrs, h1, h2, hx]
  · obtain ⟨g1, g2, _⟩ :=
      pangoImpl_frame init alter x y hxy _ ox oy' h1 h3 (by rw [h4]; exact hd) .Free
        (Or.inr rfl)
    simp only [dtor, call, pangoAttrs, g1, g2, h2, hx]

/-! ### OSX: frame lemmas -/

theorem osxFree_frame (x y : Addr) (hxy : x ≠ y) (w : OSXWorld)
    (hs : osxCounted w x y) :
    (osxFree y w).objs x = w.objs x ∧ osxCounted (osxFree y w) x y := by
  unfold osxFree
  cases hy : w.objs y with
  | none => exact ⟨rfl, hs⟩
  | some oy =>
    refine ⟨by simp [Function.update, hxy], ?_⟩
    intro ox h hx hd
    simp only [Function.update, hxy, dite_false, eq_rec_constant] at hx
    obtain ⟨h1, h2⟩ := hs ox h hx hd
    constructor
    · show 0 < (match oy.m_descriptor with
        | none => w.retainCount
        | some h => Function.update w.retainCount h (w.retainCount h - 1)) h
      cases hdy : oy.m_descriptor with
      | none => simpa using h1
      | some hy' =>
        by_cases e : h = hy'
        · subst e
          have := h2 oy hy hdy
          simp only [Function.update_same]; omega
        · simp only [Function.update_noteq e]; exact h1
    · intro oy' hoy' hdy'
      simp [Function.update] at hoy'
      subst hoy'
      simp at hdy'

theorem osxImpl_frame (init : Addr → OSXWorld → OSXWorld)
    (drops : Call Addr → OSXInfo → Bool) (alter : Call Addr → OSXInfo → OSXInfo)
    (x y : Addr) (hxy : x ≠ y) (w : OSXWorld) (hs : osxCounted w x y)
    (c : Call Addr) (hc : c.isSetter = true ∨ c = .Free) :
    (osxImpl init drops alter y c w).objs x = w.objs x ∧
    osxCounted (osxImpl init drops alter y c w) x y := by
  have key : ∀ c : Call Addr,
      (match w.objs y with
        | none => w
        | some o =>
          let w1 := if drops c o then osxFree y w else w
          let kept := if drops c o then none else o.m_descriptor
          ({ w1 with objs := Function.update w1.objs y
                      (some { alter c o with m_descriptor := kept }) } : OSXWorld)).objs x
        = w.objs x ∧
      osxCounted
        (match w.objs y with
        | none => w
        | some o =>
          let w1 := if drops c o then osxFree y w else w
          let kept := if drops c o then none else o.m_descriptor
          ({ w1 with objs := Function.update w1.objs y
                      (some { alter c o with m_descriptor := kept }) } : OSXWorld)) x y := by
    intro c
    cases hy : w.objs y with
    | none => exact ⟨rfl, hs⟩
    | some o =>
      obtain ⟨f1, f2⟩ := osxFree_frame x y hxy w hs
      by_cases hdr : drops c o = true
      · simp only [hdr, if_true]
        refine ⟨by simp [Function.update, hxy, f1], ?_⟩
        intro ox h hx hd
        simp only [Function.update, hxy, dite_false, eq_rec_constant] at hx
        refine ⟨(f2 ox h hx hd).1, ?_⟩
        intro oy' hoy' hdy'
        simp [Function.update] at hoy'
        subst hoy'
        simp at hdy'
      · simp only [hdr, if_false]
        refine ⟨by simp [Function.update, hxy], ?_⟩
        intro ox h hx hd
        simp only [Function.update, hxy, dite_false, eq_rec_constant] at hx
        refine ⟨(hs ox h hx hd).1, ?_⟩
        intro oy' hoy' hdy'
        simp [Function.update] at hoy'
        subst hoy'
        simp at hdy'
        exact (hs ox h hx hd).2 o hy hdy'
  rcases hc with hc | hc
  · cases c <;> first
      | (simp [Call.isSetter] at hc; done)
      | exact key _
  · subst hc
    exact osxFree_frame x y hxy w hs

theorem osx_callAll_frame (init : Addr → OSXWorld → OSXWorld)
    (drops : Call Addr → OSXInfo → Bool) (alter : Call Addr → OSXInfo → OSXInfo)
    (x y : Addr) (hxy : x ≠ y) (cs : List (Call Addr))
    (hcs : ∀ c ∈ cs, c.isSetter = true) (t : Traced OSXWorld Addr)
    (hs : osxCounted t.state x y) :
    (callAll (osxImpl init drops alter y) cs t).state.objs x = t.state.objs x ∧
    osxCounted (callAll (osxImpl init drops alter y) cs t).state x y := by
  induction cs generalizing t with
  | nil => exact ⟨rfl, hs⟩
  | cons c cs ih =>
    obtain ⟨h1, h2⟩ := osxImpl_frame init drops alter x y hxy t.state hs c
      (Or.inl (hcs c (List.mem_cons_self _ _)))
    have := ih (fun c' hc' => hcs c' (List.mem_cons_of_mem _ hc'))
      (call (osxImpl init drops alter y) c t) h2
    simp only [callAll]
    exact ⟨this.1.trans h1, this.2⟩

theorem osxCounted_live (w : OSXWorld) (x y : Addr) (hs : osxCounted w x y) :
    osxLive w x :=
  fun o h ho hd => (hs o h ho hd).1

theorem osx_unaffected (init : Addr → OSXWorld → OSXWorld)
    (drops : Call Addr → OSXInfo → Bool) (alter : Call Addr → OSXInfo → OSXInfo)
    (x y : Addr) (hxy : x ≠ y) (t : Traced OSXWorld Addr)
    (hs : osxCounted t.state x y) :
    OSXUnaffected (osxImpl init drops alter) t x y := by
  intro cs hcs
  obtain ⟨h1, h2⟩ := osx_callAll_frame init drops alter x y hxy cs hcs t hs
  obtain ⟨g1, g2⟩ := osxImpl_frame init drops alter x y hxy _ h2 .Free (Or.inr rfl)
  exact ⟨h1, osxCounted_live _ x y h2, g1.trans h1, osxCounted_live _ x y g2⟩

theorem osxInitFrom_counted (a b : Addr) (hab : a ≠ b) (w : OSXWorld) (oa : OSXInfo)
    (ha : w.objs a = some oa) (hl : osxLive w a) :
    (osxInitFrom b a w).objs a = some oa ∧ (osxInitFrom b a w).objs b = some oa ∧
    osxCounted (osxInitFrom b a w) a b ∧ osxCounted (osxInitFrom b a w) b a := by
  have e1 : (osxInitFrom b a w).objs a = some oa := by
    simp [osxInitFrom, ha, Function.update, hab]
  have e2 : (osxInitFrom b a w).objs b = some oa := by
    simp [osxInitFrom, ha, Function.update]
  have cnt : ∀ h, oa.m_descriptor = some h → 2 ≤ (osxInitFrom b a w).retainCount h := by
    intro h hd
    have := hl oa h ha hd
    simp only [osxInitFrom, ha, hd, Function.update_same]
    omega
  refine ⟨e1, e2, ?_, ?_⟩
  · intro ox h hx hd
    rw [e1] at hx; cases hx
    have := cnt h hd
    exact ⟨by omega, fun _ _ _ => this⟩
  · intro ox h hx hd
    rw [e2] at hx; cases hx
    have := cnt h hd
    exact ⟨by omega, fun _ _ _ => this⟩

theorem pangoInitFrom_separate {δ : Type} (a b : Addr) (hab : a ≠ b) (w : PangoWorld δ)
    (oa : PangoInfo) (ha : w.objs a = some oa) (hlt : oa.description < w.next) :
    (pangoInitFrom b a w).objs a = some oa ∧
    (pangoInitFrom b a w).objs b = some ⟨w.next, oa.m_underlined, oa.m_strikethrough⟩ ∧
    (pangoInitFrom b a w).heap oa.description = w.heap oa.description ∧
    (pangoInitFrom b a w).heap w.next = w.heap oa.description := by
  have hne : oa.description ≠ w.next := Nat.ne_of_lt hlt
  simp [pangoInitFrom, ha, Function.update, hab, hne]

theorem pango_copyOf {δ : Type} (init : Addr → PangoWorld δ → PangoWorld δ)
    (alter : Call Addr → δ → δ) (w : PangoWorld δ) (t : Traced (PangoWorld δ) Addr)
    (a b : Addr) (hab : a ≠ b) (oa ob : PangoInfo)
    (hw : w.objs a = some oa)
    (ha : t.state.objs a = some oa) (hb : t.state.objs b = some ob)
    (hda : t.state.heap oa.description = w.heap oa.description)
    (hdb : t.state.heap ob.description = w.heap oa.description)
    (hu : ob.m_underlined = oa.m_underlined)
    (hs : ob.m_strikethrough = oa.m_strikethrough)
    (hd : oa.description ≠ ob.description) :
    PangoCopyOf (pangoImpl init alter) w t a b :=
  ⟨by simp only [pangoAttrs, hb, hdb, hw, hu, hs],
   by simp only [pangoAttrs, ha, hda, hw],
   pango_unaffected init alter a b hab t oa ob ha hb hd,
   pango_unaffected init alter b a (Ne.symm hab) t ob oa hb ha (Ne.symm hd)⟩

theorem osx_copyOf (init : Addr → OSXWorld → OSXWorld)
    (drops : Call Addr → OSXInfo → Bool) (alter : Call Addr → OSXInfo → OSXInfo)
    (w w0 : OSXWorld) (l : List (Call Addr)) (a b : Addr) (hab : a ≠ b) (oa : OSXInfo)
    (h0 : w0.objs a = some oa) (ha : w.objs a = some oa) (hl : osxLive w a) :
    OSXCopyOf (osxImpl init drops alter) w0 ⟨osxInitFrom b a w, l⟩ a b := by
  obtain ⟨e1, e2, c1, c2⟩ := osxInitFrom_counted a b hab w oa ha hl
  exact ⟨e2.trans h0.symm, e1.trans h0.symm, osxCounted_live _ a b c1,
    osxCounted_live _ b a c2,
    osx_unaffected init drops alter a b hab _ c1,
    osx_unaffected init drops alter b a (Ne.symm hab) _ c2⟩

/-- C5 (against the spec's model of copying, as the header only declares
`Init(info)`, `Free()` and the setters).  Pango variant, where a copy duplicates
the native description: for a descriptor `a` whose description is one the
allocator has given out, and `b` at another address, after copy-constructing
`b` from `a`, and after assigning `a` to an existing `b` that owns a description
of its own, `b` has the attributes of `a`, `a` has kept them, and no sequence of
setter calls on one of the two, nor its destruction after them, changes an
attribute of the other.  OSX variant, where a copy retains the shared native
descriptor: the same, for a descriptor `a` whose native descriptor is allocated
(and, for the assignment, whose retain count accounts for `b` when `b` shares
it); there the native descriptor of the untouched object also stays
allocated. -/
theorem copies_do_not_alias :
    (∀ (δ : Type) (init : Addr → PangoWorld δ → PangoWorld δ)
        (alter : Call Addr → δ → δ) (w : PangoWorld δ) (l : List (Call Addr))
        (a b : Addr) (oa : PangoInfo),
        a ≠ b → w.objs a = some oa → oa.description < w.next →
        (∀ da, w.heap oa.description = some da →
          pangoAttrs w a = some (da, oa.m_underlined, oa.m_strikethrough)) ∧
        PangoCopyOf (pangoImpl init alter) w
          (copyCtor (pangoImpl init alter) b a ⟨w, l⟩) a b ∧
        (∀ ob, w.objs b = some ob → ob.description ≠ oa.description →
          PangoCopyOf (pangoImpl init alter) w
            (operatorAssign (pangoImpl init alter) b a ⟨w, l⟩).2 a b)) ∧
    (∀ (init : Addr → OSXWorld → OSXWorld) (drops : Call Addr → OSXInfo → Bool)
        (alter : Call Addr → OSXInfo → OSXInfo) (w : OSXWorld) (l : List (Call Addr))
        (a b : Addr) (oa : OSXInfo),
        a ≠ b → w.objs a = some oa →
        (osxLive w a →
          OSXCopyOf (osxImpl init drops alter) w
            (copyCtor (osxImpl init drops alter) b a ⟨w, l⟩) a b) ∧
        (osxCounted w a b →
          OSXCopyOf (osxImpl init drops alter) w
            (operatorAssign (osxImpl init drops alter) b a ⟨w, l⟩).2 a b)) := by
  constructor
  · intro δ init alter w l a b oa hab ha hlt
    have hne : oa.description ≠ w.next := Nat.ne_of_lt hlt
    refine ⟨?_, ?_, ?_⟩
    · intro da hda
      simp [pangoAttrs, ha, hda]
    · obtain ⟨e1, e2, e3, e4⟩ := pangoInitFrom_separate a b hab w oa ha hlt
      exact pango_copyOf init alter w _ a b hab oa _ ha e1 e2 e3 e4 rfl rfl hne
    · intro ob hb hdb
      have f1 : (pangoFree b w).objs a = some oa := by simp [pangoFree, hb, ha]
      have f2 : (pangoFree b w).heap oa.description = w.heap oa.description := by
        simp [pangoFree, hb, Function.update, Ne.symm hdb]
      have f3 : (pangoFree b w).next = w.next := by simp [pangoFree, hb]
      obtain ⟨e1, e2, e3, e4⟩ :=
        pangoInitFrom_separate a b hab (pangoFree b w) oa f1 (by rw [f3]; exact hlt)
      have hst : (operatorAssign (pangoImpl init alter) b a ⟨w, l⟩).2.state
          = pangoInitFrom b a (pangoFree b w) := by
        simp [operatorAssign, Ne.symm hab, call, pangoImpl]
      refine pango_copyOf init alter w _ a b hab oa
        ⟨(pangoFree b w).next, oa.m_underlined, oa.m_strikethrough⟩ ha ?_ ?_ ?_ ?_
        rfl rfl (by rw [f3]; exact hne)
      · rw [hst]; exact e1
      · rw [hst]; exact e2
      · rw [hst, e3, f2]
      · rw [hst, e4, f2]
  · intro init drops alter w l a b oa hab ha
    constructor
    · intro hl
      exact osx_copyOf init drops alter w w _ a b hab oa ha ha hl
    · intro hc
      obtain ⟨f1, f2⟩ := osxFree_frame a b hab w hc
      have hst : (operatorAssign (osxImpl init drops alter) b a ⟨w, l⟩).2
          = ⟨osxInitFrom b a (osxFree b w), l ++ [.Free, .InitFrom a]⟩ := by
        simp [operatorAssign, Ne.symm hab, call, osxImpl]
      rw [hst]
      exact osx_copyOf init drops alter (osxFree b w) w _ a b hab oa ha (f1.trans ha)
        (osxCounted_live _ a b f2)

/-! ### Instances and the generic variant -/

/-- An instance of C3: the size 7 is stored as given and the size -1 selects
the 12pt of the normal font, each through one `SetFractionalPointSize` call. -/
theorem SetSizeOrDefault_spec_witness :
    (Double.le Double.zero (.fin 7) = true ∧
      SetSizeOrDefault (genericImpl noRest) sampleFont (.fin 7) ⟨samplePrior, []⟩
        = ⟨{ samplePrior with pointSize := .fin 7 }, [.SetFractionalPointSize (.fin 7)]⟩) ∧
    (Double.lt (.fin (-1)) Double.zero = true ∧
      SetSizeOrDefault (genericImpl noRest) sampleFont (.fin (-1)) ⟨samplePrior, []⟩
        = ⟨{ samplePrior with pointSize := .fin 12 }, [.SetFractionalPointSize (.fin 12)]⟩) :=
  ⟨⟨by decide,
    ((SetSizeOrDefault_spec (genericImpl noRest) noRest sampleFont (.fin 7)
        ⟨samplePrior, []⟩ samplePrior []).1 (by decide)).1⟩,
   ⟨by decide,
    ((SetSizeOrDefault_spec (genericImpl noRest) noRest sampleFont (.fin (-1))
        ⟨samplePrior, []⟩ samplePrior []).2 (by decide)).1⟩⟩

/-- C4 as stated fails: a font without a face name leaves the face name the
descriptor had before, here Courier, which is not the font's (empty) one. -/
theorem InitFromFont_keeps_prior_faceName :
    sampleFont.GetFaceName = "" ∧
    (InitFromFont (genericImpl noRest) .other sampleFont ⟨samplePrior, []⟩).state.faceName
      = "Courier" ∧
    (InitFromFont (genericImpl noRest) .other sampleFont ⟨samplePrior, []⟩).state.faceName
      ≠ sampleFont.GetFaceName := by
  decide

/-- C4, amended: on the generic variant, after `InitFromFont(f)` the style,
numeric weight, underlined flag, strikethrough flag, fractional point size,
family and encoding are those of `f` whatever the descriptor held before; the
face name is that of `f` when `f` has a non-empty face name, and otherwise the
face name the descriptor had before. -/
theorem InitFromFont_generic_populates {ν : Type} (rest : Impl GenericInfo ν)
    (font : wxFont ν) (d : GenericInfo) (l : List (Call ν)) :
    (InitFromFont (genericImpl rest) .other font ⟨d, l⟩).state
      = { pointSize := font.GetFractionalPointSize
          family := font.GetFamily
          style := font.GetStyle
          weight := font.GetNumericWeight
          underlined := font.GetUnderlined
          strikethrough := font.GetStrikethrough
          faceName := if font.GetFaceName = "" then d.faceName else font.GetFaceName
          encoding := font.GetEncoding } := by
  by_cases hf : font.GetFaceName = "" <;>
    simp [InitFromFont, call, genericImpl, hf]

/-- An instance of C6: on the generic port, with the sample font, which names
no face. -/
theorem InitFromFont_SetEncoding_last_witness :
    Platform.other ≠ .pango ∧ Platform.other ≠ .osx ∧
    ∃ pre : List (Call Addr),
      InitFromFont (genericImpl noRest) .other sampleFont ⟨samplePrior, []⟩
        = call (genericImpl noRest) (.SetEncoding sampleFont.GetEncoding)
            (callAll (genericImpl noRest) pre ⟨samplePrior, []⟩) ∧
      (InitFromFont (genericImpl noRest) .other sampleFont ⟨samplePrior, []⟩).state
        = genericImpl noRest (.SetEncoding sampleFont.GetEncoding)
            (callAll (genericImpl noRest) pre ⟨samplePrior, []⟩).state ∧
      (InitFromFont (genericImpl noRest) .other sampleFont ⟨samplePrior, []⟩).log
        = [] ++ pre ++ [.SetEncoding sampleFont.GetEncoding] ∧
      .SetFamily sampleFont.GetFamily ∈ pre ∧
      (sampleFont.GetFaceName ≠ "" → .SetFaceName sampleFont.GetFaceName ∈ pre) ∧
      (sampleFont.GetFaceName = "" → ∀ s, .SetFaceName s ∉ pre) ∧
      (∀ e, .SetEncoding e ∉ pre) :=
  ⟨by decide, by decide,
   InitFromFont_SetEncoding_last (genericImpl noRest) .other sampleFont
     ⟨samplePrior, []⟩ (by decide) (by decide)⟩

/-- An instance of C7: in the sample Pango memory, assigning the descriptor at
address 1 to itself, and assigning it to the descriptor at address 2. -/
theorem operatorAssign_spec_witness :
    ((1 : Addr) = 1 ∧
      operatorAssign (pangoImpl (fun _ w => w) sampleAlter) 1 1 ⟨samplePangoWorld, []⟩
        = (1, ⟨samplePangoWorld, []⟩)) ∧
    ((2 : Addr) ≠ 1 ∧
      operatorAssign (pangoImpl (fun _ w => w) sampleAlter) 2 1 ⟨samplePangoWorld, []⟩
        = (2, ⟨pangoImpl (fun _ w => w) sampleAlter 2 (.InitFrom 1)
                 (pangoImpl (fun _ w => w) sampleAlter 2 .Free samplePangoWorld),
               [] ++ [.Free, .InitFrom 1]⟩)) :=
  ⟨⟨rfl, (operatorAssign_spec (pangoImpl (fun _ w => w) sampleAlter) 1 1
            ⟨samplePangoWorld, []⟩).1 rfl⟩,
   ⟨by decide, (operatorAssign_spec (pangoImpl (fun _ w => w) sampleAlter) 2 1
            ⟨samplePangoWorld, []⟩).2 (by decide)⟩⟩

theorem sampleOSXWorld_counted (x y : Addr) : osxCounted sampleOSXWorld x y := by
  intro ox h hx hd
  have hh : h = 0 := by
    by_cases e : x = 1 ∨ x = 2
    · simp [sampleOSXWorld, e] at hx
      subst hx
      simpa [sampleOSXInfo] using hd.symm
    · simp [sampleOSXWorld, e] at hx
  subst hh
  simp [sampleOSXWorld]

/-- An instance of C5: in the sample Pango memory, a copy of the descriptor at
address 1 constructed at address 3, and the assignment of it to the descriptor
at address 2; in the sample OSX memory, the same for two descriptors that
share a native descriptor. -/
theorem copies_do_not_alias_witness :
    pangoAttrs samplePangoWorld 1 = some ((.fin 12, "Sans"), true, false) ∧
    (PangoCopyOf (pangoImpl (fun _ w => w) sampleAlter) samplePangoWorld
        (copyCtor (pangoImpl (fun _ w => w) sampleAlter) 3 1 ⟨samplePangoWorld, []⟩) 1 3 ∧
      PangoCopyOf (pangoImpl (fun _ w => w) sampleAlter) samplePangoWorld
        (operatorAssign (pangoImpl (fun _ w => w) sampleAlter) 2 1
          ⟨samplePangoWorld, []⟩).2 1 2) ∧
    (OSXCopyOf (osxImpl (fun _ w => w) (fun _ _ => true) sampleOSXAlter) sampleOSXWorld
        (copyCtor (osxImpl (fun _ w => w) (fun _ _ => true) sampleOSXAlter) 3 1
          ⟨sampleOSXWorld, []⟩) 1 3 ∧
      OSXCopyOf (osxImpl (fun _ w => w) (fun _ _ => true) sampleOSXAlter) sampleOSXWorld
        (operatorAssign (osxImpl (fun _ w => w) (fun _ _ => true) sampleOSXAlter) 2 1
          ⟨sampleOSXWorld, []⟩).2 1 2) :=
  ⟨(copies_do_not_alias.1 SampleDescription (fun _ w => w) sampleAlter samplePangoWorld []
        1 3 ⟨0, true, false⟩ (by decide) rfl (by decide)).1 (.fin 12, "Sans") rfl,
   ⟨(copies_do_not_alias.1 SampleDescription (fun _ w => w) sampleAlter samplePangoWorld []
        1 3 ⟨0, true, false⟩ (by decide) rfl (by decide)).2.1,
    (copies_do_not_alias.1 SampleDescription (fun _ w => w) sampleAlter samplePangoWorld []
        1 2 ⟨0, true, false⟩ (by decide) rfl (by decide)).2.2
      ⟨1, false, false⟩ rfl (by decide)⟩,
   ⟨(copies_do_not_alias.2 (fun _ w => w) (fun _ _ => true) sampleOSXAlter sampleOSXWorld []
        1 3 (sampleOSXInfo (some 0)) (by decide) rfl).1
      (osxCounted_live _ 1 3 (sampleOSXWorld_counted 1 3)),
    (copies_do_not_alias.2 (fun _ w => w) (fun _ _ => true) sampleOSXAlter sampleOSXWorld []
        1 2 (sampleOSXInfo (some 0)) (by decide) rfl).2
      (sampleOSXWorld_counted 1 2)⟩⟩

end FontUtil
